import Mathlib

/-!
Shallow embedding of the Derecho view-management core (src/derecho/view.cpp,
src/src/core/rpc_manager.cpp, and the DerechoSST field declarations), together
with theorems settling the frozen claims about it.

Machine integers that can only hold small non-negative counts are modelled as
`Nat`; C++ `int` values that can be `-1` sentinels are modelled as `Int`.
Out-of-bounds vector accesses (undefined behaviour in the C++) are modelled
totally with `getD`/`getElem?`; theorems carry the well-formedness hypotheses
under which those defaults are never reached.
-/

namespace Derecho

/-- One iteration bound `for(r = start; r < start + count; ++r) if (p r) return r;`:
returns the first index in `[start, start + count)` satisfying `p`, if any. -/
def scanFirst (p : Nat → Bool) : Nat → Nat → Option Nat
  | _, 0 => none
  | start, count + 1 => if p start then some start else scanFirst p (start + 1) count

/-! ## Basic data model (view.h types used by view.cpp) -/

/-- The tuple `(ip_addr_t, uint16_t, uint16_t, uint16_t, uint16_t)` of an address
and the gms / rdmc / sst / external ports. -/
structure IpAndPorts where
  ip : String
  gms_port : Nat
  rdmc_port : Nat
  sst_port : Nat
  external_port : Nat
deriving DecidableEq, Repr, Inhabited

/-- Delivery mode of a SubView. -/
inductive Mode where
  | ORDERED
  | UNORDERED
  | RAW
deriving DecidableEq, Repr, Inhabited

/-- The membership of one shard of one subgroup. -/
structure SubView where
  mode : Mode
  members : List Nat
  is_sender : List Int
  member_ips_and_ports : List IpAndPorts
  joined : List Nat
  departed : List Nat
  my_rank : Int
deriving DecidableEq, Repr, Inhabited

/-- The four-argument `SubView::SubView` constructor (view.cpp lines 24-39):
`is_sender` is initialized to all ones of length `members.size()`, then
overwritten by the argument only when the argument is non-empty. `joined` and
`departed` start empty (they are filled in later by the ViewManager), and
`my_rank` starts at `-1`. -/
def mkSubView (mode : Mode) (members : List Nat) (is_sender : List Int)
    (member_ips_and_ports : List IpAndPorts) : SubView :=
  { mode := mode
    members := members
    is_sender := if is_sender.length ≠ 0 then is_sender else List.replicate members.length 1
    member_ips_and_ports := member_ips_and_ports
    joined := []
    departed := []
    my_rank := -1 }

/-- `SubView::num_senders` (view.cpp lines 63-71): the number of non-zero
entries of `is_sender`. -/
def SubView.num_senders (sv : SubView) : Nat :=
  sv.is_sender.countP (fun i => i != 0)

/-- The serializable state of a `View` plus the two fields (`my_rank`,
`next_unassigned_rank`) that are rebuilt rather than shipped. Runtime-only
handles (the SST pointer, the multicast group, the `node_id_to_rank` cache and
`subgroup_type_order`) are not part of the embedded state. -/
structure View where
  vid : Int
  members : List Nat
  member_ips_and_ports : List IpAndPorts
  failed : List Bool
  num_failed : Int
  joined : List Nat
  departed : List Nat
  num_members : Nat
  my_rank : Int
  next_unassigned_rank : Int
  subgroup_ids_by_type_id : List (Nat × List Nat)
  subgroup_shard_views : List (List SubView)
  my_subgroups : List (Nat × Nat)
deriving DecidableEq, Repr, Inhabited

/-- The deserialization constructor `View::View` (view.cpp lines 73-99): every
serialized field is copied, while `my_rank` is set to `0` (a placeholder that
the receiver must overwrite) and `next_unassigned_rank` is set to `0` (it is
never serialized; layout functions are re-run independently). -/
def View.deserialize (vid : Int) (members : List Nat)
    (member_ips_and_ports : List IpAndPorts) (failed : List Bool)
    (num_failed : Int) (joined departed : List Nat) (num_members : Nat)
    (subgroup_ids_by_type_id : List (Nat × List Nat))
    (subgroup_shard_views : List (List SubView))
    (my_subgroups : List (Nat × Nat)) : View :=
  { vid := vid
    members := members
    member_ips_and_ports := member_ips_and_ports
    failed := failed
    num_failed := num_failed
    joined := joined
    departed := departed
    num_members := num_members
    my_rank := 0
    next_unassigned_rank := 0
    subgroup_ids_by_type_id := subgroup_ids_by_type_id
    subgroup_shard_views := subgroup_shard_views
    my_subgroups := my_subgroups }

/-- Serializing a `View` and deserializing the result: serialization captures
exactly the fields the deserialization constructor receives (the argument list
of the constructor at view.cpp lines 73-81), and deserialization feeds them
back through that constructor. -/
def View.serialize_roundtrip (v : View) : View :=
  View.deserialize v.vid v.members v.member_ips_and_ports v.failed v.num_failed
    v.joined v.departed v.num_members v.subgroup_ids_by_type_id
    v.subgroup_shard_views v.my_subgroups

/-- `View::rank_of_leader` (view.cpp lines 101-108): the first rank `r` below
`num_members` with `failed[r]` false, or `-1` if there is none. -/
def View.rank_of_leader (v : View) : Int :=
  match scanFirst (fun r => !(v.failed.getD r false)) 0 v.num_members with
  | some r => (r : Int)
  | none => -1

/-- `View::i_am_leader` (view.cpp lines 189-191). -/
def View.i_am_leader (v : View) : Bool :=
  v.rank_of_leader == v.my_rank

/-- `View::rank_of(node_id)` (view.cpp lines 147-153): looks the node up in the
`node_id_to_rank` map, which was filled by inserting `members[rank] -> rank`
for every rank in ascending order, so a duplicated id maps to its highest rank.
Returns `-1` when the id is absent. -/
def View.rank_of (v : View) (who : Nat) : Int :=
  match ((List.range v.num_members).filter
      (fun r => v.members[r]? == some who)).getLast? with
  | some r => (r : Int)
  | none => -1

/-- Reading `failed[i]` at a possibly signed index, as
`View::subview_rank_of_shard_leader` does with the result of `rank_of`; a
negative index is undefined behaviour in the C++ and modelled as `false`
(callers establish that it cannot occur). -/
def View.failed_at (v : View) (i : Int) : Bool :=
  if 0 ≤ i then v.failed.getD i.toNat false else false

/-- A node id is marked failed in the view: it occurs at some rank whose
`failed` flag is set. -/
def View.node_is_failed (v : View) (m : Nat) : Bool :=
  decide (∃ i < v.members.length, v.members[i]? = some m ∧ v.failed.getD i false = true)

/-- `View::subview_rank_of_shard_leader` (view.cpp lines 173-187): `none`
models the `std::out_of_range` thrown by `.at(subgroup_id)`; an out-of-range
shard index yields `-1`; otherwise the first shard rank whose member is not
failed (looked up through `rank_of`) is returned, or `-1` if there is none. -/
def View.subview_rank_of_shard_leader (v : View) (subgroup_id shard_index : Nat) :
    Option Int :=
  match v.subgroup_shard_views[subgroup_id]? with
  | none => none
  | some shards =>
    if h : shard_index < shards.length then
      match scanFirst (fun rank =>
          !(v.failed_at (v.rank_of ((shards.get ⟨shard_index, h⟩).members.getD rank 0))))
          0 (shards.get ⟨shard_index, h⟩).members.length with
      | some rank => some (rank : Int)
      | none => some (-1)
    else some (-1)

/-- The `std::distance(members.begin(), std::find(members.begin(), members.end(), m))`
idiom of `View::make_subview` (view.cpp lines 161-163): the position of the
first occurrence of `m`, or `none` when `m` is absent (the C++ yields
`members.size()` there, which the caller compares against before use). -/
def findPos (l : List Nat) (m : Nat) : Option Nat :=
  match l with
  | [] => none
  | x :: xs => if x = m then some 0 else (findPos xs m).map (fun i => i + 1)

/-- The view's address entry for a node id: the `member_ips_and_ports` entry at
the first position of the id in `members` (`default` when absent, which callers
rule out). -/
def View.entry_for_node (v : View) (m : Nat) : IpAndPorts :=
  match findPos v.members m with
  | some i => v.member_ips_and_ports.getD i default
  | none => default

/-- The loop of `View::make_subview` (view.cpp lines 158-168): for each subview
rank in order, locate the node in `members` and collect its address entry;
`none` models the `subgroup_provisioning_exception` thrown when some id is not
found. -/
def collect_subview_ips (v : View) : List Nat → Option (List IpAndPorts)
  | [] => some []
  | m :: rest =>
    match findPos v.members m with
    | none => none
    | some pos =>
      match collect_subview_ips v rest with
      | none => none
      | some ips => some (v.member_ips_and_ports.getD pos default :: ips)

/-- `View::make_subview` (view.cpp lines 155-171): `Except.error ()` models the
thrown `subgroup_provisioning_exception`; on success the four-argument SubView
constructor is applied to the collected addresses. The method is `const`: the
view is not modified, which the functional embedding reflects by not returning
a view at all. -/
def View.make_subview (v : View) (with_members : List Nat) (mode : Mode)
    (is_sender : List Int) : Except Unit SubView :=
  match collect_subview_ips v with_members with
  | none => Except.error ()
  | some ips => Except.ok (mkSubView mode with_members is_sender ips)

/-! ## The GMS part of the shared state table (DerechoSST) -/

/-- One row of the DerechoSST, restricted to the group-management fields
(the DerechoSST class declaration): the circular `changes` log with its
parallel `joiner_ips`, the four watermarks over it, the suspicion bits, the
wedged flag and the ragged-edge fields. The capacity of the circular log is
`changes.length` (`gmsSST->changes.size()` in the C++). -/
structure GMSRow where
  suspected : List Bool
  changes : List Nat
  joiner_ips : List Nat
  num_changes : Nat
  num_committed : Nat
  num_acked : Nat
  num_installed : Nat
  num_received : List Int
  wedged : Bool
  global_min : List Int
  global_min_ready : List Bool
deriving DecidableEq, Repr, Inhabited

/-- The inner scan of `View::merge_changes` (view.cpp lines 229-235): whether
`id` occurs in the window `[num_committed, num_changes)` of the local row's
circular `changes` log, indices taken modulo the log capacity. -/
def changeAlreadyListed (r : GMSRow) (id : Nat) : Bool :=
  decide (∃ c < r.num_changes, r.num_committed ≤ c ∧
    r.changes.getD (c % r.changes.length) 0 = id)

/-- One iteration of the first merge loop of `View::merge_changes` (view.cpp
lines 212-223): adopt the peer's `changes` log wholesale when its
`num_changes` is strictly larger, and raise `num_committed` to the peer's
value when strictly smaller. -/
def mergeStep (acc row : GMSRow) : GMSRow :=
  let acc1 := if acc.num_changes < row.num_changes then
      { acc with changes := row.changes, num_changes := row.num_changes }
    else acc
  if acc1.num_committed < row.num_committed then
    { acc1 with num_committed := row.num_committed }
  else acc1

/-- One iteration of the second loop of `View::merge_changes` (view.cpp lines
225-246), carrying the `found` flag, which the C++ declares once before the
loop and never resets inside it: a failed member only triggers the window scan
while `found` is still false; a non-failed member sets `found`; and the member
id is appended at `num_changes mod capacity` only when `found` is still false
afterwards (in which case `found` remains false). -/
def proposeStep (memId : Nat) (isFailed : Bool) (st : Bool × GMSRow) : Bool × GMSRow :=
  let found := if isFailed then (st.1 || changeAlreadyListed st.2 memId) else true
  if found then (found, st.2)
  else (found, { st.2 with
      changes := st.2.changes.set (st.2.num_changes % st.2.changes.length) memId
      num_changes := st.2.num_changes + 1 })

/-- `View::merge_changes` (view.cpp lines 209-260) as a function from the
snapshot of all SST rows to the new local row (row `my_rank`): first the merge
loop over all `num_members` rows, then the append loop with the shared `found`
flag. The four trailing `put` calls publish `changes`, `joiner_ips`,
`num_changes` and `num_committed` and do not change the row. -/
def View.merge_changes (v : View) (rows : List GMSRow) : GMSRow :=
  let local0 := rows.getD v.my_rank.toNat default
  let merged := (List.range v.num_members).foldl
      (fun acc n => mergeStep acc (rows.getD n default)) local0
  ((List.range v.num_members).foldl
      (fun st n => proposeStep (v.members.getD n 0) (v.failed.getD n false) st)
      (false, merged)).2

/-! ## Wedge (View::wedge) -/

/-- Tags for the DerechoSST row fields, in their declaration order, used to
record which fields a `put` call covers. -/
inductive SSTFieldTag where
  | seq_num
  | stable_num
  | delivered_num
  | persisted_num
  | vid
  | suspected
  | changes
  | joiner_ips
  | num_changes
  | num_committed
  | num_acked
  | num_installed
  | num_received
  | wedged
  | global_min
  | global_min_ready
deriving DecidableEq, Repr

/-- The state `View::wedge` acts on: the multicast group's wedged status, the
local SST row, and the log of `put` calls issued so far (each put is the list
of row fields its byte range covers). -/
structure WedgeState where
  multicast_wedged : Bool
  row : GMSRow
  published : List (List SSTFieldTag)
deriving DecidableEq, Repr

/-- `View::wedge` (view.cpp lines 262-267): first `multicast_group->wedge()`,
then `gmssst::set(gmsSST->wedged[my_rank], true)`, then a `put` whose byte
range is exactly `sizeof(gmsSST->wedged[0])` starting at the `wedged` field,
i.e. a put covering only the wedged field. -/
def View.wedge (st : WedgeState) : WedgeState :=
  let st1 : WedgeState := { st with multicast_wedged := true }
  let st2 : WedgeState := { st1 with row := { st1.row with wedged := true } }
  { st2 with published := st2.published ++ [[SSTFieldTag.wedged]] }

/-- The three statements of `View::wedge` in their program order. -/
inductive WedgeEvent where
  | wedge_multicast_group
  | set_wedged_flag
  | put_wedged_field
deriving DecidableEq, Repr

/-- The order in which `View::wedge` performs its three actions (view.cpp
lines 263-266). -/
def wedge_event_order : List WedgeEvent :=
  [WedgeEvent.wedge_multicast_group, WedgeEvent.set_wedged_flag,
   WedgeEvent.put_wedged_field]

/-! ## New-leader detection (View::i_am_new_leader) -/

/-- The double loop of `View::i_am_new_leader` (view.cpp lines 198-204): the
check passes when for every `n` and `row` below `my_rank`, member `n` is
failed or row `row` suspects `n`. -/
def newLeaderCheck (v : View) (suspected : List (List Bool)) : Bool :=
  decide (∀ n < v.my_rank.toNat, ∀ row < v.my_rank.toNat,
    v.failed.getD n false = true ∨ (suspected.getD row []).getD n false = true)

/-- `View::i_am_new_leader` (view.cpp lines 193-207) as a function of the
`i_know_i_am_leader` flag and the current SST `suspected` matrix; returns the
call's result and the new flag. -/
def View.i_am_new_leader (v : View) (know : Bool) (suspected : List (List Bool)) :
    Bool × Bool :=
  if know then (false, know)
  else if newLeaderCheck v suspected then (true, true)
  else (false, false)

/-- A sequence of `i_am_new_leader` calls on the same view, each observing a
possibly different `suspected` matrix, threading the `i_know_i_am_leader`
flag; returns the list of results. -/
def runNewLeaderCalls (v : View) : Bool → List (List (List Bool)) → List Bool
  | _, [] => []
  | know, s :: rest =>
    (v.i_am_new_leader know s).1 :: runNewLeaderCalls v (v.i_am_new_leader know s).2 rest

/-! ## RPCManager pending results (rpc_manager.cpp) -/

/-- RPC completion errors relevant to view change. -/
inductive RpcError where
  | node_removed
  | caller_removed
deriving DecidableEq, Repr

/-- Modelled from the spec: the `PendingResults` class (pending_results.hpp is
not under src/; only its callers are). A pending RPC result tracks the
destination nodes of the call, the nodes whose replies have arrived, and the
per-node completion errors; a node with an error "expects no further reply". -/
structure PendingResults where
  dest_nodes : List Nat
  responded : List Nat
  exceptions : List (Nat × RpcError)
deriving DecidableEq, Repr, Inhabited

/-- Modelled from the spec: whether a completion error has been recorded for
node `n`. -/
def PendingResults.has_exception (pr : PendingResults) (n : Nat) : Bool :=
  (pr.exceptions.lookup n).isSome

/-- Modelled from the spec: a pending result still waits on node `d` when `d`
is a destination that has neither replied nor been completed with an error. -/
def PendingResults.waiting_on (pr : PendingResults) (d : Nat) : Bool :=
  pr.dest_nodes.contains d && !(pr.responded.contains d) && !(pr.has_exception d)

/-- Modelled from the spec: every destination has replied or has been
completed with an error, so no further reply is expected. -/
def PendingResults.all_responded (pr : PendingResults) : Bool :=
  pr.dest_nodes.all (fun d => pr.responded.contains d || pr.has_exception d)

/-- Modelled from the spec: `set_exception_for_removed_node` records
`node_removed` for the node when the result was still waiting on it, and
"does nothing if removed_id was never in the shard this PendingResult
corresponds to" (comment at rpc_manager.cpp lines 205-206). -/
def PendingResults.set_exception_for_removed_node (pr : PendingResults) (n : Nat) :
    PendingResults :=
  if pr.waiting_on n then
    { pr with exceptions := (n, RpcError.node_removed) :: pr.exceptions }
  else pr

/-- The two collections through which RPCManager tracks pending RPC results:
`pending_results_to_fulfill` holds results whose reply map has not been
fulfilled yet, `fulfilled_pending_results` holds the rest. Both are keyed by
subgroup id. -/
structure RPCManagerState where
  pending_results_to_fulfill : List (Nat × PendingResults)
  fulfilled_pending_results : List (Nat × PendingResults)
deriving DecidableEq, Repr

/-- All departed node ids over all shards of a subgroup in a view, in the
iteration order of `RPCManager::new_view_callback` (shards in order, each
shard's departed list in order). -/
def departed_of_subgroup (nv : View) (sg : Nat) : List Nat :=
  ((nv.subgroup_shard_views.getD sg []).map SubView.departed).flatten

/-- The inner double loop of `RPCManager::new_view_callback` (rpc_manager.cpp
lines 201-210): call `set_exception_for_removed_node` for every departed node
of every shard of the subgroup. -/
def apply_departed (nv : View) (sg : Nat) (pr : PendingResults) : PendingResults :=
  (departed_of_subgroup nv sg).foldl PendingResults.set_exception_for_removed_node pr

/-- `RPCManager::new_view_callback` (rpc_manager.cpp lines 186-215), restricted
to its effect on the tracked pending results: each fulfilled pending result
that has received all its responses is erased (garbage collection); each
remaining fulfilled one receives `set_exception_for_removed_node` for every
departed node of every shard of its subgroup. The `pending_results_to_fulfill`
queues are not touched. -/
def RPCManager.new_view_callback (st : RPCManagerState) (nv : View) : RPCManagerState :=
  let kept := st.fulfilled_pending_results.filter (fun p => !(p.2.all_responded))
  { st with fulfilled_pending_results := kept.map (fun p => (p.1, apply_departed nv p.1 p.2)) }

/-- Every pending RPC result the RPCManager tracks, in either collection. -/
def tracked_pending (st : RPCManagerState) : List (Nat × PendingResults) :=
  st.pending_results_to_fulfill ++ st.fulfilled_pending_results

/-- Claim C2 as stated: after `new_view_callback`, no tracked pending RPC
result is still waiting on any node departed from any shard of its subgroup. -/
def claimC2Holds (st : RPCManagerState) (nv : View) : Prop :=
  ∀ p ∈ tracked_pending (RPCManager.new_view_callback st nv),
    ∀ d ∈ departed_of_subgroup nv p.1, p.2.waiting_on d = false

/-! ## Concrete inputs used by counterexamples and witnesses -/

/-- A two-member view with distinct address entries, used to exercise
`make_subview`. -/
def c6View : View :=
  { vid := 1
    members := [2, 3]
    member_ips_and_ports :=
      [{ ip := "a", gms_port := 1, rdmc_port := 2, sst_port := 3, external_port := 4 },
       { ip := "b", gms_port := 5, rdmc_port := 6, sst_port := 7, external_port := 8 }]
    failed := [false, false]
    num_failed := 0
    joined := []
    departed := []
    num_members := 2
    my_rank := 0
    next_unassigned_rank := 0
    subgroup_ids_by_type_id := []
    subgroup_shard_views := []
    my_subgroups := [] }

/-- A two-member view (local rank 0, member 20 at rank 1 failed) whose change
log is empty, used to run `merge_changes`. -/
def c1View : View :=
  { vid := 5
    members := [10, 20]
    member_ips_and_ports := []
    failed := [false, true]
    num_failed := 1
    joined := []
    departed := []
    num_members := 2
    my_rank := 0
    next_unassigned_rank := 0
    subgroup_ids_by_type_id := []
    subgroup_shard_views := []
    my_subgroups := [] }

/-- An all-zero SST row with change-log capacity 4. -/
def c1Row : GMSRow :=
  { suspected := [false, false]
    changes := [0, 0, 0, 0]
    joiner_ips := [0, 0, 0, 0]
    num_changes := 0
    num_committed := 0
    num_acked := 0
    num_installed := 0
    num_received := [0, 0]
    wedged := false
    global_min := [0, 0]
    global_min_ready := [false] }

/-- The SST snapshot for `c1View`: both rows all zero. -/
def c1Rows : List GMSRow := [c1Row, c1Row]

/-- A pending RPC result waiting on node 5 alone. -/
def c2Pending : PendingResults :=
  { dest_nodes := [5]
    responded := []
    exceptions := [] }

/-- An RPCManager state in which the result waiting on node 5 is still in the
to-fulfill queue of subgroup 0 (its reply map has not been fulfilled). -/
def c2State : RPCManagerState :=
  { pending_results_to_fulfill := [(0, c2Pending)]
    fulfilled_pending_results := [] }

/-- An RPCManager state in which the same result sits in the fulfilled
collection of subgroup 0. -/
def c2StateFulfilled : RPCManagerState :=
  { pending_results_to_fulfill := []
    fulfilled_pending_results := [(0, c2Pending)] }

/-- The shard of the new view from which node 5 departed. -/
def c2Shard : SubView :=
  { mode := Mode.ORDERED
    members := [1]
    is_sender := [1]
    member_ips_and_ports := []
    joined := []
    departed := [5]
    my_rank := 0 }

/-- A new view with one subgroup and one shard, with node 5 departed. -/
def c2View : View :=
  { vid := 9
    members := [1]
    member_ips_and_ports := []
    failed := [false]
    num_failed := 0
    joined := []
    departed := [5]
    num_members := 1
    my_rank := 0
    next_unassigned_rank := 0
    subgroup_ids_by_type_id := []
    subgroup_shard_views := [[c2Shard]]
    my_subgroups := [] }

/-- A two-member view whose local rank is 1, used to exercise the
serialization round-trip. -/
def c3View : View :=
  { vid := 7
    members := [1, 2]
    member_ips_and_ports := []
    failed := [false, false]
    num_failed := 0
    joined := []
    departed := [3]
    num_members := 2
    my_rank := 1
    next_unassigned_rank := 2
    subgroup_ids_by_type_id := []
    subgroup_shard_views := []
    my_subgroups := [] }

/-- A two-member view whose rank-0 member is failed, so rank 1 leads. -/
def c4View : View :=
  { vid := 3
    members := [7, 8]
    member_ips_and_ports := []
    failed := [true, false]
    num_failed := 1
    joined := []
    departed := []
    num_members := 2
    my_rank := 1
    next_unassigned_rank := 0
    subgroup_ids_by_type_id := []
    subgroup_shard_views := []
    my_subgroups := [] }

/-- A one-shard, one-subgroup view whose rank-0 member is failed, used to
exercise `subview_rank_of_shard_leader`. -/
def c5Shard : SubView :=
  { mode := Mode.ORDERED
    members := [4, 5]
    is_sender := [1, 1]
    member_ips_and_ports := []
    joined := []
    departed := []
    my_rank := -1 }

/-- The enclosing view for `c5Shard`: member 4 (rank 0) is failed. -/
def c5View : View :=
  { vid := 2
    members := [4, 5]
    member_ips_and_ports := []
    failed := [true, false]
    num_failed := 1
    joined := []
    departed := []
    num_members := 2
    my_rank := 1
    next_unassigned_rank := 0
    subgroup_ids_by_type_id := []
    subgroup_shard_views := [[c5Shard]]
    my_subgroups := [] }

/-! # Theorems -/

theorem scanFirst_eq_some (p : Nat → Bool) :
    ∀ (count start r : Nat), scanFirst p start count = some r →
      start ≤ r ∧ r < start + count ∧ p r = true ∧
        ∀ j, start ≤ j → j < r → p j = false := by
  intro count
  induction count with
  | zero => intro start r h; simp [scanFirst] at h
  | succ k ih =>
    intro start r h
    by_cases hp : p start = true
    · simp [scanFirst, hp] at h
      subst h
      exact ⟨Nat.le_refl _, Nat.lt_of_lt_of_le (Nat.lt_succ_self _) (by omega), hp,
        fun j h1 h2 => absurd (Nat.lt_of_le_of_lt h1 h2) (Nat.lt_irrefl _)⟩
    · simp [scanFirst, hp] at h
      obtain ⟨h1, h2, h3, h4⟩ := ih (start + 1) r h
      refine ⟨by omega, by omega, h3, ?_⟩
      intro j hj1 hj2
      rcases Nat.eq_or_lt_of_le hj1 with heq | hlt
      · subst heq; exact Bool.eq_false_iff.mpr hp
      · exact h4 j hlt hj2

theorem scanFirst_eq_none (p : Nat → Bool) :
    ∀ (count start : Nat), scanFirst p start count = none →
      ∀ j, start ≤ j → j < start + count → p j = false := by
  intro count
  induction count with
  | zero => intro start _ j h1 h2; omega
  | succ k ih =>
    intro start h j h1 h2
    by_cases hp : p start = true
    · simp [scanFirst, hp] at h
    · simp [scanFirst, hp] at h
      rcases Nat.eq_or_lt_of_le h1 with heq | hlt
      · subst heq; exact Bool.eq_false_iff.mpr hp
      · exact ih (start + 1) h j hlt (by omega)

theorem scanFirst_eq_some_of (p : Nat → Bool) :
    ∀ (count start r : Nat), start ≤ r → r < start + count → p r = true →
      (∀ j, start ≤ j → j < r → p j = false) →
      scanFirst p start count = some r := by
  intro count
  induction count with
  | zero => intro start r h1 h2; omega
  | succ k ih =>
    intro start r h1 h2 h3 h4
    rcases Nat.eq_or_lt_of_le h1 with heq | hlt
    · subst heq; simp [scanFirst, h3]
    · have hps : p start = false := h4 start (Nat.le_refl _) hlt
      simp [scanFirst, hps]
      exact ih (start + 1) r hlt (by omega) h3 fun j hj1 hj2 => h4 j (by omega) hj2

theorem scanFirst_eq_none_of (p : Nat → Bool) :
    ∀ (count start : Nat), (∀ j, start ≤ j → j < start + count → p j = false) →
      scanFirst p start count = none := by
  intro count
  induction count with
  | zero => intro start _; rfl
  | succ k ih =>
    intro start h
    have hps : p start = false := h start (Nat.le_refl _) (by omega)
    simp [scanFirst, hps]
    exact ih (start + 1) fun j h1 h2 => h j (by omega) (by omega)

/-- C3, counterexample: the round-trip through the serialization constructor is
not the identity, because `my_rank` (1 here) comes back as the placeholder 0
and `next_unassigned_rank` (2 here) comes back as 0. -/
theorem C3_roundtrip_counterexample : View.serialize_roundtrip c3View ≠ c3View := by
  decide

/-- C3, amended: deserializing the serialized form of a `View` yields a `View`
equal to the original in every serialized field, but with `my_rank` and
`next_unassigned_rank` reset to 0 (they are deliberately not shipped; the
receiver overwrites `my_rank` and recomputes `next_unassigned_rank`). -/
theorem C3_roundtrip_amended (v : View) :
    View.serialize_roundtrip v = { v with my_rank := 0, next_unassigned_rank := 0 } := rfl

/-- C4: `View::rank_of_leader` returns the smallest rank whose member is not
failed (`-1` when every member below `num_members` is failed), and
`View::i_am_leader` returns true exactly when that rank equals `my_rank`. -/
theorem C4_rank_of_leader (v : View) :
    ((∀ r, r < v.num_members → v.failed.getD r false = true) → v.rank_of_leader = -1) ∧
    (∀ r, r < v.num_members → v.failed.getD r false = false →
      (∀ j, j < r → v.failed.getD j false = true) → v.rank_of_leader = (r : Int)) ∧
    (v.i_am_leader = true ↔ v.rank_of_leader = v.my_rank) := by
  refine ⟨?_, ?_, ?_⟩
  · intro hall
    have hnone : scanFirst (fun r => !(v.failed.getD r false)) 0 v.num_members = none := by
      apply scanFirst_eq_none_of
      intro j _ hj
      show (!(v.failed.getD j false)) = false
      rw [hall j (by omega)]
      rfl
    simp only [View.rank_of_leader]
    rw [hnone]
  · intro r hr hfr hleast
    have hsome : scanFirst (fun r => !(v.failed.getD r false)) 0 v.num_members = some r := by
      apply scanFirst_eq_some_of _ _ _ _ (Nat.zero_le r) (by omega)
      · show (!(v.failed.getD r false)) = true
        rw [hfr]
        rfl
      · intro j _ hj
        show (!(v.failed.getD j false)) = false
        rw [hleast j hj]
        rfl
    simp only [View.rank_of_leader]
    rw [hsome]
  · simp [View.i_am_leader, beq_iff_eq]

/-- C4, witness: on `c4View` (rank 0 failed, local rank 1) the leader rank is 1
and the local node knows itself to be the leader. -/
theorem C4_rank_of_leader_witness :
    c4View.rank_of_leader = 1 ∧ c4View.i_am_leader = true := by
  have h := C4_rank_of_leader c4View
  have h1 : c4View.rank_of_leader = (1 : Int) := by
    apply h.2.1 1 (by decide) (by decide)
    intro j hj
    interval_cases j
    · decide
  exact ⟨h1, (h.2.2).mpr (by rw [h1]; decide)⟩

theorem getD_replicate {α : Type} : ∀ (n i : Nat) (a d : α), i < n →
    (List.replicate n a).getD i d = a := by
  intro n
  induction n with
  | zero => intro i a d h; omega
  | succ k ih =>
    intro i a d h
    cases i with
    | zero => rfl
    | succ j => exact ih j a d (by omega)

theorem countP_replicate {α : Type} (p : α → Bool) : ∀ (n : Nat) (a : α),
    (List.replicate n a).countP p = if p a then n else 0 := by
  intro n
  induction n with
  | zero => intro a; simp
  | succ k ih =>
    intro a
    rw [List.replicate_succ, List.countP_cons, ih a]
    by_cases hp : p a <;> simp [hp]

/-- C9: the four-argument SubView constructor treats an empty `is_sender`
argument as "everyone sends": the stored flags are all ones (one per member),
every rank's flag is non-zero, and `num_senders` equals the member count. A
non-empty `is_sender` argument is stored exactly as given. -/
theorem C9_subview_default_senders (mode : Mode) (members : List Nat)
    (ips : List IpAndPorts) :
    (mkSubView mode members [] ips).is_sender = List.replicate members.length 1 ∧
    (∀ i, i < members.length → (mkSubView mode members [] ips).is_sender.getD i 0 ≠ 0) ∧
    (mkSubView mode members [] ips).num_senders = members.length ∧
    (∀ s : List Int, s ≠ [] → (mkSubView mode members s ips).is_sender = s) := by
  have h1 : (mkSubView mode members [] ips).is_sender = List.replicate members.length 1 := by
    simp [mkSubView]
  refine ⟨h1, ?_, ?_, ?_⟩
  · intro i hi
    rw [h1, getD_replicate _ _ _ _ hi]
    decide
  · rw [SubView.num_senders, h1, countP_replicate]
    rfl
  · intro s hs
    have hl : s.length ≠ 0 := by
      intro hc
      exact hs (List.length_eq_zero.mp hc)
    simp [mkSubView, hl]

/-- C9, witness: with members `[1, 2]` an empty sender vector makes both
members senders, while an explicit `[0, 1]` is kept verbatim. -/
theorem C9_subview_default_senders_witness :
    (mkSubView Mode.ORDERED [1, 2] [] []).num_senders = 2 ∧
    (mkSubView Mode.ORDERED [1, 2] [0, 1] []).is_sender = [0, 1] := by
  have h := C9_subview_default_senders Mode.ORDERED [1, 2] []
  exact ⟨h.2.2.1, h.2.2.2 [0, 1] (by decide)⟩

theorem findPos_eq_none_iff : ∀ (l : List Nat) (m : Nat),
    findPos l m = none ↔ ¬ m ∈ l := by
  intro l
  induction l with
  | nil => intro m; simp [findPos]
  | cons x xs ih =>
    intro m
    by_cases hx : x = m
    · subst hx; simp [findPos]
    · simp only [findPos, if_neg hx, Option.map_eq_none', ih m, List.mem_cons]
      constructor
      · intro h hmem
        rcases hmem with heq | hmem
        · exact hx heq.symm
        · exact h hmem
      · intro h hmem
        exact h (Or.inr hmem)

theorem collect_subview_ips_eq_none_iff (v : View) :
    ∀ (wm : List Nat), collect_subview_ips v wm = none ↔ ∃ m ∈ wm, ¬ m ∈ v.members := by
  intro wm
  induction wm with
  | nil => simp [collect_subview_ips]
  | cons m rest ih =>
    cases hf : findPos v.members m with
    | none =>
      have hm : ¬ m ∈ v.members := (findPos_eq_none_iff v.members m).mp hf
      simp only [collect_subview_ips, hf]
      constructor
      · intro _; exact ⟨m, List.mem_cons_self m rest, hm⟩
      · intro _; trivial
    | some pos =>
      have hm : m ∈ v.members := by
        by_contra hc
        rw [← findPos_eq_none_iff v.members m] at hc
        rw [hc] at hf
        exact Option.noConfusion hf
      cases hc : collect_subview_ips v rest with
      | none =>
        have hex := ih.mp hc
        simp only [collect_subview_ips, hf, hc]
        constructor
        · intro _
          obtain ⟨m2, hm2, hnm2⟩ := hex
          exact ⟨m2, List.mem_cons_of_mem m hm2, hnm2⟩
        · intro _; trivial
      | some ips =>
        simp only [collect_subview_ips, hf, hc]
        constructor
        · intro hcon; exact Option.noConfusion hcon
        · intro hex
          obtain ⟨m2, hm2, hnm2⟩ := hex
          rcases List.mem_cons.mp hm2 with heq | hmem
          · subst heq; exact absurd hm hnm2
          · exact absurd (ih.mpr ⟨m2, hmem, hnm2⟩) (by rw [hc]; intro hcc; exact Option.noConfusion hcc)

theorem collect_subview_ips_spec (v : View) :
    ∀ (wm : List Nat) (ips : List IpAndPorts), collect_subview_ips v wm = some ips →
      ips.length = wm.length ∧
      ∀ r, r < wm.length → ips.getD r default = v.entry_for_node (wm.getD r 0) := by
  intro wm
  induction wm with
  | nil =>
    intro ips h
    simp only [collect_subview_ips] at h
    cases h
    exact ⟨rfl, fun r hr => absurd hr (by simp)⟩
  | cons m rest ih =>
    intro ips h
    cases hf : findPos v.members m with
    | none => rw [collect_subview_ips, hf] at h; exact Option.noConfusion h
    | some pos =>
      cases hc : collect_subview_ips v rest with
      | none => rw [collect_subview_ips, hf, hc] at h; exact Option.noConfusion h
      | some tailIps =>
        rw [collect_subview_ips, hf, hc] at h
        cases h
        obtain ⟨hlen, hspec⟩ := ih tailIps hc
        constructor
        · simp [hlen]
        · intro r hr
          cases r with
          | zero =>
            show v.member_ips_and_ports.getD pos default = v.entry_for_node m
            rw [View.entry_for_node, hf]
          | succ j =>
            show tailIps.getD j default = v.entry_for_node (rest.getD j 0)
            exact hspec j (by simpa using hr)

/-- C6: `View::make_subview` throws `subgroup_provisioning_exception` exactly
when some requested node id is not a member of the view; on success the
returned SubView lists exactly the requested members in order and carries, at
each subview rank, the view's address entry for that rank's node. The method
is `const`, so the view itself is unchanged. -/
theorem C6_make_subview (v : View) (wm : List Nat) (mode : Mode) (s : List Int) :
    (v.make_subview wm mode s = Except.error () ↔ ∃ m ∈ wm, ¬ m ∈ v.members) ∧
    ∀ sv, v.make_subview wm mode s = Except.ok sv →
      sv.members = wm ∧ sv.mode = mode ∧
      sv.member_ips_and_ports.length = wm.length ∧
      ∀ r, r < wm.length →
        sv.member_ips_and_ports.getD r default = v.entry_for_node (wm.getD r 0) := by
  constructor
  · rw [← collect_subview_ips_eq_none_iff v wm]
    cases h : collect_subview_ips v wm <;> simp [View.make_subview, h]
  · intro sv h
    cases hcol : collect_subview_ips v wm with
    | none => rw [View.make_subview, hcol] at h; exact Except.noConfusion h
    | some ips =>
      rw [View.make_subview, hcol] at h
      cases h
      obtain ⟨hlen, hspec⟩ := collect_subview_ips_spec v wm ips hcol
      exact ⟨rfl, rfl, hlen, hspec⟩

/-- C6, witness: on the concrete two-member view, requesting the unknown id 99
throws, while requesting `[3]` succeeds with exactly that member list. -/
theorem C6_make_subview_witness :
    c6View.make_subview [99] Mode.ORDERED [] = Except.error () ∧
    (c6View.make_subview [3] Mode.ORDERED []).map SubView.members = Except.ok [3] := by
  constructor
  · exact (C6_make_subview c6View [99] Mode.ORDERED []).1.mpr ⟨99, by decide, by decide⟩
  · cases hc : c6View.make_subview [3] Mode.ORDERED [] with
    | error e =>
      cases e
      exact absurd ((C6_make_subview c6View [3] Mode.ORDERED []).1.mp hc) (by decide)
    | ok sv =>
      have h := (C6_make_subview c6View [3] Mode.ORDERED []).2 sv hc
      simp [Except.map, h.1]

theorem nodup_getElem?_inj (l : List Nat) (hnd : l.Nodup) (i j m : Nat)
    (hi : l[i]? = some m) (hj : l[j]? = some m) : i = j := by
  obtain ⟨hi1, hi2⟩ := List.getElem?_eq_some.mp hi
  obtain ⟨hj1, hj2⟩ := List.getElem?_eq_some.mp hj
  have : l.get ⟨i, hi1⟩ = l.get ⟨j, hj1⟩ := by
    simp only [List.get_eq_getElem]
    rw [hi2, hj2]
  exact congrArg Fin.val (hnd.get_inj_iff.mp this)

theorem rank_of_eq (v : View) (hlen : v.members.length = v.num_members)
    (hnd : v.members.Nodup) (i m : Nat) (hi : i < v.members.length)
    (hm : v.members[i]? = some m) : v.rank_of m = (i : Int) := by
  have hmem : i ∈ (List.range v.num_members).filter
      (fun r => v.members[r]? == some m) := by
    rw [List.mem_filter, List.mem_range]
    exact ⟨by omega, by rw [hm]; exact beq_self_eq_true _⟩
  have hne : (List.range v.num_members).filter
      (fun r => v.members[r]? == some m) ≠ [] := List.ne_nil_of_mem hmem
  have hall : ∀ r ∈ (List.range v.num_members).filter
      (fun r => v.members[r]? == some m), r = i := by
    intro r hr
    rw [List.mem_filter, List.mem_range] at hr
    exact nodup_getElem?_inj v.members hnd r i m (eq_of_beq hr.2) hm
  rw [View.rank_of, List.getLast?_eq_getLast _ hne, hall _ (List.getLast_mem hne)]

theorem failed_at_rank_of (v : View) (hlen : v.members.length = v.num_members)
    (hflen : v.failed.length = v.members.length) (hnd : v.members.Nodup)
    (m : Nat) (hm : m ∈ v.members) :
    v.failed_at (v.rank_of m) = v.node_is_failed m := by
  obtain ⟨i, hi, hgeti⟩ := List.mem_iff_getElem.mp hm
  have hmi : v.members[i]? = some m := by rw [List.getElem?_eq_getElem hi, hgeti]
  rw [rank_of_eq v hlen hnd i m hi hmi, View.failed_at,
    if_pos (Int.natCast_nonneg i), Int.toNat_natCast]
  cases hf : v.failed.getD i false with
  | false =>
    have : v.node_is_failed m = false := by
      rw [View.node_is_failed, decide_eq_false_iff_not]
      intro hcon
      obtain ⟨j, hj, hjm, hjf⟩ := hcon
      rw [nodup_getElem?_inj v.members hnd j i m hjm hmi] at hjf
      rw [hf] at hjf
      exact Bool.false_ne_true hjf
    rw [this]
  | true =>
    have : v.node_is_failed m = true := by
      rw [View.node_is_failed, decide_eq_true_iff]
      exact ⟨i, hi, hmi, hf⟩
    rw [this]

/-- C5: under the claim's containment hypothesis (plus well-formedness of the
view), `View::subview_rank_of_shard_leader` returns the smallest rank within
the shard whose member is not marked failed in the view, and `-1` either when
the shard index is out of range for the subgroup or when every shard member is
failed. -/
theorem C5_subview_rank_of_shard_leader (v : View) (sg shard : Nat)
    (shards : List SubView)
    (hsh : v.subgroup_shard_views[sg]? = some shards)
    (hlen : v.members.length = v.num_members)
    (hflen : v.failed.length = v.members.length)
    (hnd : v.members.Nodup)
    (hsub : ∀ sv ∈ shards, ∀ m ∈ sv.members, m ∈ v.members) :
    (shards.length ≤ shard → v.subview_rank_of_shard_leader sg shard = some (-1)) ∧
    ∀ sv, shards[shard]? = some sv →
      ((∀ r, r < sv.members.length → v.node_is_failed (sv.members.getD r 0) = true) →
         v.subview_rank_of_shard_leader sg shard = some (-1)) ∧
      (∀ r, r < sv.members.length → v.node_is_failed (sv.members.getD r 0) = false →
        (∀ j, j < r → v.node_is_failed (sv.members.getD j 0) = true) →
        v.subview_rank_of_shard_leader sg shard = some (r : Int)) := by
  have hred : v.subview_rank_of_shard_leader sg shard =
      if h : shard < shards.length then
        match scanFirst (fun rank =>
            !(v.failed_at (v.rank_of ((shards.get ⟨shard, h⟩).members.getD rank 0))))
            0 (shards.get ⟨shard, h⟩).members.length with
        | some rank => some (rank : Int)
        | none => some (-1)
      else some (-1) := by
    rw [View.subview_rank_of_shard_leader, hsh]
  constructor
  · intro hge
    rw [hred, dif_neg (by omega)]
  · intro sv hsv
    obtain ⟨hlt, hget⟩ := List.getElem?_eq_some.mp hsv
    have hgete : shards.get ⟨shard, hlt⟩ = sv := hget
    have hsvmem : sv ∈ shards := by rw [← hget]; exact List.getElem_mem hlt
    have hbridge : ∀ r, r < sv.members.length →
        v.failed_at (v.rank_of (sv.members.getD r 0)) =
        v.node_is_failed (sv.members.getD r 0) := by
      intro r hr
      have hmm : sv.members.getD r 0 ∈ sv.members := by
        rw [List.getD_eq_getElem sv.members 0 hr]
        exact List.getElem_mem hr
      exact failed_at_rank_of v hlen hflen hnd _ (hsub sv hsvmem _ hmm)
    constructor
    · intro hall
      have hnone : scanFirst (fun rank =>
          !(v.failed_at (v.rank_of ((shards.get ⟨shard, hlt⟩).members.getD rank 0))))
          0 (shards.get ⟨shard, hlt⟩).members.length = none := by
        apply scanFirst_eq_none_of
        intro j _ hj
        rw [hgete] at hj ⊢
        show (!(v.failed_at (v.rank_of (sv.members.getD j 0)))) = false
        rw [hbridge j (by omega), hall j (by omega)]
        rfl
      rw [hred, dif_pos hlt, hnone]
    · intro r hr hnf hleast
      have hsome : scanFirst (fun rank =>
          !(v.failed_at (v.rank_of ((shards.get ⟨shard, hlt⟩).members.getD rank 0))))
          0 (shards.get ⟨shard, hlt⟩).members.length = some r := by
        apply scanFirst_eq_some_of _ _ _ _ (Nat.zero_le r)
        · rw [hgete]; omega
        · rw [hgete]
          show (!(v.failed_at (v.rank_of (sv.members.getD r 0)))) = true
          rw [hbridge r hr, hnf]
          rfl
        · intro j _ hj
          rw [hgete]
          show (!(v.failed_at (v.rank_of (sv.members.getD j 0)))) = false
          rw [hbridge j (by omega), hleast j hj]
          rfl
      rw [hred, dif_pos hlt, hsome]

/-- C5, witness: in `c5View` (shard members `[4, 5]`, member 4 failed) the
shard leader has shard rank 1, and an out-of-range shard index yields `-1`. -/
theorem C5_subview_rank_of_shard_leader_witness :
    c5View.subview_rank_of_shard_leader 0 0 = some 1 ∧
    c5View.subview_rank_of_shard_leader 0 3 = some (-1) := by
  constructor
  · have h := C5_subview_rank_of_shard_leader c5View 0 0 [c5Shard] rfl (by decide)
      (by decide) (by decide) (by decide)
    have h2 := (h.2 c5Shard rfl).2 1 (by decide) (by decide)
    apply h2
    intro j hj
    interval_cases j
    · decide
  · exact (C5_subview_rank_of_shard_leader c5View 0 3 [c5Shard] rfl (by decide)
      (by decide) (by decide) (by decide)).1 (by decide)

/-- C8: `View::wedge` leaves the local row equal to the old row except that
`wedged` is set (so a true flag is never cleared), marks the multicast group
wedged, and its single `put` covers only the `wedged` field; in the program
order of the function the multicast-group wedge strictly precedes setting the
SST flag. -/
theorem C8_wedge (st : WedgeState) :
    (View.wedge st).row = { st.row with wedged := true } ∧
    (View.wedge st).multicast_wedged = true ∧
    (View.wedge st).published = st.published ++ [[SSTFieldTag.wedged]] ∧
    (View.wedge st).row.wedged = true ∧
    wedge_event_order.indexOf WedgeEvent.wedge_multicast_group <
      wedge_event_order.indexOf WedgeEvent.set_wedged_flag := by
  exact ⟨rfl, rfl, rfl, rfl, by decide⟩

theorem runNewLeaderCalls_true_count (v : View) :
    ∀ (ssts : List (List (List Bool))),
      (runNewLeaderCalls v true ssts).count true = 0 := by
  intro ssts
  induction ssts with
  | nil => rfl
  | cons s rest ih =>
    simp [runNewLeaderCalls, View.i_am_new_leader, ih]

/-- C10: over any sequence of `i_am_new_leader` calls on the same view (each
possibly observing a different `suspected` matrix), the function returns true
at most once when the `i_know_i_am_leader` flag starts false, and never when
it starts true — once it has returned true, every later call returns false. -/
theorem C10_i_am_new_leader_once (v : View) (ssts : List (List (List Bool))) :
    (runNewLeaderCalls v false ssts).count true ≤ 1 ∧
    (runNewLeaderCalls v true ssts).count true = 0 := by
  refine ⟨?_, runNewLeaderCalls_true_count v ssts⟩
  induction ssts with
  | nil => simp [runNewLeaderCalls]
  | cons s rest ih =>
    by_cases hc : newLeaderCheck v s
    · simp [runNewLeaderCalls, View.i_am_new_leader, hc,
        runNewLeaderCalls_true_count v rest]
    · simp only [runNewLeaderCalls, View.i_am_new_leader, if_neg (Bool.false_ne_true),
        if_neg hc]
      simpa using ih

theorem mergeStep_bounds (acc row : GMSRow) :
    acc.num_changes ≤ (mergeStep acc row).num_changes ∧
    acc.num_committed ≤ (mergeStep acc row).num_committed ∧
    row.num_changes ≤ (mergeStep acc row).num_changes ∧
    row.num_committed ≤ (mergeStep acc row).num_committed := by
  rw [mergeStep]
  split_ifs <;> simp_all <;> omega

theorem mergeFold_bounds (l : List GMSRow) : ∀ (acc : GMSRow),
    (acc.num_changes ≤ (l.foldl mergeStep acc).num_changes ∧
     acc.num_committed ≤ (l.foldl mergeStep acc).num_committed) ∧
    ∀ row ∈ l, row.num_changes ≤ (l.foldl mergeStep acc).num_changes ∧
      row.num_committed ≤ (l.foldl mergeStep acc).num_committed := by
  induction l with
  | nil => intro acc; exact ⟨⟨Nat.le_refl _, Nat.le_refl _⟩, by simp⟩
  | cons row rest ih =>
    intro acc
    have hstep := mergeStep_bounds acc row
    have hrest := ih (mergeStep acc row)
    rw [List.foldl_cons]
    refine ⟨⟨Nat.le_trans hstep.1 hrest.1.1, Nat.le_trans hstep.2.1 hrest.1.2⟩, ?_⟩
    intro r hr
    rcases List.mem_cons.mp hr with heq | hmem
    · subst heq
      exact ⟨Nat.le_trans hstep.2.2.1 hrest.1.1, Nat.le_trans hstep.2.2.2 hrest.1.2⟩
    · exact hrest.2 r hmem

theorem proposeStep_bounds (memId : Nat) (isFailed : Bool) (st : Bool × GMSRow) :
    st.2.num_changes ≤ (proposeStep memId isFailed st).2.num_changes ∧
    (proposeStep memId isFailed st).2.num_committed = st.2.num_committed := by
  rw [proposeStep]
  split_ifs <;> simp

theorem proposeFold_bounds (f : Nat → Nat) (g : Nat → Bool) (l : List Nat) :
    ∀ (st : Bool × GMSRow),
      st.2.num_changes ≤
        (l.foldl (fun st n => proposeStep (f n) (g n) st) st).2.num_changes ∧
      (l.foldl (fun st n => proposeStep (f n) (g n) st) st).2.num_committed
        = st.2.num_committed := by
  induction l with
  | nil => intro st; exact ⟨Nat.le_refl _, rfl⟩
  | cons n rest ih =>
    intro st
    have hstep := proposeStep_bounds (f n) (g n) st
    have hrest := ih (proposeStep (f n) (g n) st)
    rw [List.foldl_cons]
    exact ⟨Nat.le_trans hstep.1 hrest.1, hrest.2.trans hstep.2⟩

/-- C7: `View::merge_changes` never decreases the local row's `num_changes`
or `num_committed`: afterwards both are at least the local row's initial
values and at least the corresponding value of every row the merge loop read
(ranks below `num_members`). -/
theorem C7_merge_changes_monotone (v : View) (rows : List GMSRow) :
    ((rows.getD v.my_rank.toNat default).num_changes
        ≤ (v.merge_changes rows).num_changes ∧
      (rows.getD v.my_rank.toNat default).num_committed
        ≤ (v.merge_changes rows).num_committed) ∧
    ∀ n, n < v.num_members →
      (rows.getD n default).num_changes ≤ (v.merge_changes rows).num_changes ∧
      (rows.getD n default).num_committed ≤ (v.merge_changes rows).num_committed := by
  have hunfold : v.merge_changes rows =
      ((List.range v.num_members).foldl
        (fun st n => proposeStep (v.members.getD n 0) (v.failed.getD n false) st)
        (false, ((List.range v.num_members).map (fun n => rows.getD n default)).foldl
          mergeStep (rows.getD v.my_rank.toNat default))).2 := by
    rw [View.merge_changes, List.foldl_map]
  have hmerge := mergeFold_bounds
    ((List.range v.num_members).map (fun n => rows.getD n default))
    (rows.getD v.my_rank.toNat default)
  have hprop := proposeFold_bounds (fun n => v.members.getD n 0)
    (fun n => v.failed.getD n false) (List.range v.num_members)
    (false, ((List.range v.num_members).map (fun n => rows.getD n default)).foldl
      mergeStep (rows.getD v.my_rank.toNat default))
  rw [hunfold]
  constructor
  · exact ⟨Nat.le_trans hmerge.1.1 hprop.1,
      hprop.2 ▸ hmerge.1.2⟩
  · intro n hn
    have hmem : rows.getD n default ∈
        (List.range v.num_members).map (fun n => rows.getD n default) :=
      List.mem_map.mpr ⟨n, List.mem_range.mpr hn, rfl⟩
    have hrow := hmerge.2 _ hmem
    exact ⟨Nat.le_trans hrow.1 hprop.1, hprop.2 ▸ hrow.2⟩

/-- C7, witness: on the concrete two-row snapshot `c1Rows` both watermarks of
row 1 are dominated by the merged local row. -/
theorem C7_merge_changes_monotone_witness :
    (c1Rows.getD 1 default).num_changes ≤ (c1View.merge_changes c1Rows).num_changes ∧
    (c1Rows.getD 1 default).num_committed ≤ (c1View.merge_changes c1Rows).num_committed := by
  exact (C7_merge_changes_monotone c1View c1Rows).2 1 (by decide)

/-- C1, failing evaluation: in `c1View` the member 20 at rank 1 is failed and
is not yet proposed anywhere, yet after `merge_changes` on the all-zero
snapshot the local row's window `[num_committed, num_changes)` still does not
contain 20 (the window is empty: `num_changes` stays 0), because the `found`
flag set by non-failed rank 0 is never reset before rank 1 is examined. -/
theorem C1_merge_changes_failing_eval :
    c1View.failed.getD 1 false = true ∧
    c1View.members.getD 1 0 = 20 ∧
    (c1View.merge_changes c1Rows).num_changes = 0 ∧
    ∀ c, c < (c1View.merge_changes c1Rows).num_changes →
      (c1View.merge_changes c1Rows).num_committed ≤ c →
      (c1View.merge_changes c1Rows).changes.getD
        (c % (c1View.merge_changes c1Rows).changes.length) 0 ≠ 20 := by
  decide

/-- C2, counterexample to the claim as stated: a pending RPC result that is
still in the to-fulfill queue is not touched by `new_view_callback`, so it is
left waiting on departed node 5. -/
theorem C2_new_view_callback_counterexample : ¬ claimC2Holds c2State c2View := by
  unfold claimC2Holds
  decide

theorem set_exception_not_waiting (pr : PendingResults) (d : Nat) :
    (pr.set_exception_for_removed_node d).waiting_on d = false := by
  rw [PendingResults.set_exception_for_removed_node]
  split_ifs with hw
  · simp [PendingResults.waiting_on, PendingResults.has_exception, List.lookup_cons]
  · simpa using hw

theorem set_exception_waiting_eq (pr : PendingResults) (d e : Nat) (hed : e ≠ d) :
    (pr.set_exception_for_removed_node d).waiting_on e = pr.waiting_on e := by
  rw [PendingResults.set_exception_for_removed_node]
  split_ifs with hw
  · have hb : (e == d) = false := beq_eq_false_iff_ne.mpr hed
    simp [PendingResults.waiting_on, PendingResults.has_exception, List.lookup_cons, hb]
  · rfl

theorem set_exception_lookup_self (pr : PendingResults) (d : Nat)
    (h : pr.waiting_on d = true) :
    (pr.set_exception_for_removed_node d).exceptions.lookup d
      = some RpcError.node_removed := by
  rw [PendingResults.set_exception_for_removed_node, if_pos h]
  simp [List.lookup_cons]

theorem set_exception_lookup_preserved (pr : PendingResults) (d e : Nat)
    (err : RpcError) (h : pr.exceptions.lookup e = some err) :
    (pr.set_exception_for_removed_node d).exceptions.lookup e = some err := by
  rw [PendingResults.set_exception_for_removed_node]
  split_ifs with hw
  · by_cases hed : e = d
    · subst hed
      exfalso
      have hexc : pr.has_exception e = true := by
        rw [PendingResults.has_exception, h]
        rfl
      rw [PendingResults.waiting_on, hexc] at hw
      simp at hw
    · have hb : (e == d) = false := beq_eq_false_iff_ne.mpr hed
      show List.lookup e ((d, RpcError.node_removed) :: pr.exceptions) = some err
      rw [List.lookup_cons, hb]
      exact h
  · exact h

theorem apply_fold_not_waiting_preserved (l : List Nat) :
    ∀ (pr : PendingResults) (d : Nat), pr.waiting_on d = false →
      (l.foldl PendingResults.set_exception_for_removed_node pr).waiting_on d = false := by
  induction l with
  | nil => intro pr d h; exact h
  | cons x rest ih =>
    intro pr d h
    rw [List.foldl_cons]
    apply ih
    by_cases hdx : d = x
    · subst hdx; exact set_exception_not_waiting pr d
    · rw [set_exception_waiting_eq pr x d hdx]; exact h

theorem apply_fold_not_waiting (l : List Nat) :
    ∀ (pr : PendingResults) (d : Nat), d ∈ l →
      (l.foldl PendingResults.set_exception_for_removed_node pr).waiting_on d = false := by
  induction l with
  | nil => intro pr d h; cases h
  | cons x rest ih =>
    intro pr d h
    rw [List.foldl_cons]
    rcases List.mem_cons.mp h with heq | hmem
    · subst heq
      exact apply_fold_not_waiting_preserved rest _ d (set_exception_not_waiting pr d)
    · exact ih _ d hmem

theorem apply_fold_lookup_preserved (l : List Nat) :
    ∀ (pr : PendingResults) (d : Nat) (err : RpcError),
      pr.exceptions.lookup d = some err →
      (l.foldl PendingResults.set_exception_for_removed_node pr).exceptions.lookup d
        = some err := by
  induction l with
  | nil => intro pr d err h; exact h
  | cons x rest ih =>
    intro pr d err h
    rw [List.foldl_cons]
    exact ih _ d err (set_exception_lookup_preserved pr x d err h)

theorem apply_fold_lookup_node_removed (l : List Nat) :
    ∀ (pr : PendingResults) (d : Nat), d ∈ l → pr.waiting_on d = true →
      (l.foldl PendingResults.set_exception_for_removed_node pr).exceptions.lookup d
        = some RpcError.node_removed := by
  induction l with
  | nil => intro pr d h; cases h
  | cons x rest ih =>
    intro pr d hmem hw
    rw [List.foldl_cons]
    by_cases hdx : d = x
    · subst hdx
      exact apply_fold_lookup_preserved rest _ d _ (set_exception_lookup_self pr d hw)
    · rcases List.mem_cons.mp hmem with heq | hmem2
      · exact absurd heq hdx
      · exact ih _ d hmem2 (by rw [set_exception_waiting_eq pr x d hdx]; exact hw)

/-- C2, amended: `new_view_callback` leaves the to-fulfill queues untouched;
for every *fulfilled* pending result that has not yet received all its
responses, the result (with the departed-node exceptions applied) remains
tracked, it is no longer waiting on any node departed from any shard of its
subgroup, and every departed node it was still waiting on is completed with
the `node_removed` error. -/
theorem C2_new_view_callback_amended (st : RPCManagerState) (nv : View) :
    (RPCManager.new_view_callback st nv).pending_results_to_fulfill
      = st.pending_results_to_fulfill ∧
    ∀ q ∈ st.fulfilled_pending_results, q.2.all_responded = false →
      (q.1, apply_departed nv q.1 q.2) ∈
        (RPCManager.new_view_callback st nv).fulfilled_pending_results ∧
      ∀ d ∈ departed_of_subgroup nv q.1,
        (apply_departed nv q.1 q.2).waiting_on d = false ∧
        (q.2.waiting_on d = true →
          (apply_departed nv q.1 q.2).exceptions.lookup d
            = some RpcError.node_removed) := by
  constructor
  · rfl
  · intro q hq hnr
    constructor
    · show (q.1, apply_departed nv q.1 q.2) ∈
        (st.fulfilled_pending_results.filter (fun p => !(p.2.all_responded))).map
          (fun p => (p.1, apply_departed nv p.1 p.2))
      apply List.mem_map.mpr
      refine ⟨q, List.mem_filter.mpr ⟨hq, ?_⟩, rfl⟩
      rw [hnr]
      rfl
    · intro d hd
      exact ⟨apply_fold_not_waiting _ _ d hd,
        fun hw => apply_fold_lookup_node_removed _ _ d hd hw⟩

/-- C2, witness: in the concrete state whose only pending result (waiting on
node 5) sits in the fulfilled collection of subgroup 0, the callback for the
view from which node 5 departed stops the wait and records `node_removed`. -/
theorem C2_new_view_callback_amended_witness :
    (apply_departed c2View 0 c2Pending).waiting_on 5 = false ∧
    (apply_departed c2View 0 c2Pending).exceptions.lookup 5
      = some RpcError.node_removed := by
  have h := (C2_new_view_callback_amended c2StateFulfilled c2View).2 (0, c2Pending)
    (by decide) (by decide)
  have h2 := h.2 5 (by decide)
  exact ⟨h2.1, h2.2 (by decide)⟩

end Derecho
